import Mathlib

/-!
Verification of the indexed proxy pool manager
(`fast_proxy_manager/data_manager.py`).

The Python `DataManager` class is shallowly embedded: each record dict
becomes a `Proxy` structure, the manager's mutable state becomes `DMState`,
and each method becomes a pure function, returning `Except PyError _` where
the Python method can raise.  Persistence (`_write_data`) is external I/O and
is outside the model; the secondary index is modelled by its consistency
invariant (see `indexBucket`).
-/

/-- One proxy record, mirroring the dict built in `DataManager.add_proxy`. -/
structure Proxy where
  url : String
  protocol : String
  country : String
  anonymity : String
  times_failed : Nat
  times_succeed : Nat
  times_failed_in_row : Nat
deriving Repr, DecidableEq, Inhabited

/-- A candidate entry handed to `add_proxy`: a dict with a required `url`
and optional `country`, `anonymity`, `protocol` keys. -/
structure Candidate where
  url : String
  country : Option String
  anonymity : Option String
  protocol : Option String
deriving Repr, DecidableEq

/-- The Python exceptions raised by `data_manager.py`: `IndexError` in
`rm_proxy`, `NoProxyAvailable` in `get_proxy`, `ValueError` in
`_validate_protocol`. -/
inductive PyError where
  | indexError : String → PyError
  | noProxyAvailable : String → PyError
  | valueError : String → PyError
deriving Repr, DecidableEq

deriving instance DecidableEq for Except

/-- The mutable state of a `DataManager` instance together with its
constructor configuration. -/
structure DMState where
  allowed_fails_in_row : Nat
  fails_without_check : Nat
  percent_failed_to_remove : ℚ
  min_proxies : Nat
  proxies : List Proxy
  last_proxy_index : Option Nat
deriving Repr, DecidableEq

/-- Modelled from the spec: the repository's `utils.URL` class is not under
`src/`; per the spec the endpoint is kept as a normalized URI string and the
`protocol` attribute is the parsed URL scheme. -/
structure ModelURL where
  urlRepr : String
  protocol : String
deriving Repr, DecidableEq

/-- Modelled from the spec: `URL(s)` parses an endpoint string; its scheme is
the part before the first colon and `repr` is the normalized string
(normalization modelled as the identity). -/
def parseURL (s : String) : ModelURL :=
  { urlRepr := s,
    protocol := String.mk (s.toList.takeWhile (fun c => c ≠ ':')) }

/-- The allowed protocol values checked by `_validate_protocol`. -/
def allowed_protocols : List String := ["http", "https", "socks4", "socks5"]

/-- `_validate_protocol` (data_manager.py lines 12-20), on an
already-normalized `list[str] | None` argument: raises `ValueError` naming
the first invalid value. -/
def _validate_protocol (protocols : Option (List String)) :
    Except PyError (Option (List String)) :=
  match protocols with
  | none => Except.ok none
  | some ps =>
    match ps.find? (fun p => !(allowed_protocols.contains p)) with
    | some bad =>
        Except.error (PyError.valueError ("You cant use this protocol: " ++ bad))
    | none => Except.ok (some ps)

/-- The record built for one candidate inside `add_proxy` (lines 113-123):
`protocol` is always taken from the parsed URL; the candidate's own
`protocol` field is never read. -/
def mkRecord (c : Candidate) : Proxy :=
  let url := parseURL c.url
  { url := url.urlRepr
    protocol := url.protocol
    country := c.country.getD "unknown"
    anonymity := c.anonymity.getD "unknown"
    times_failed := 0
    times_succeed := 0
    times_failed_in_row := 0 }

/-- The reverse-scan seen-set filter inside `_rm_duplicate_proxies`:
keeps the first occurrence of each url in the traversal order. -/
def dedupAux : List Proxy → List String → List Proxy
  | [], _ => []
  | p :: rest, seen =>
    if p.url ∈ seen then dedupAux rest seen
    else p :: dedupAux rest (p.url :: seen)

/-- `_rm_duplicate_proxies` (lines 64-71): scans `reversed(self.proxies)`
keeping each url's first occurrence in that reversed order. -/
def rmDuplicateProxies (proxies : List Proxy) : List Proxy :=
  dedupAux proxies.reverse []

/-- `rm_proxy` (lines 136-152): bounds-checked removal; on success pops the
record, rebuilds the index (implicit here), decrements `last_proxy_index`
when the removed position was strictly before it, and persists (I/O, outside
the model).  Out of range: `IndexError("Proxy does not exist")`. -/
def rm_proxy (s : DMState) (index : Int) : Except PyError DMState :=
  if 0 ≤ index ∧ index < (s.proxies.length : Int) then
    let i := index.toNat
    let newLast : Option Nat :=
      match s.last_proxy_index with
      | none => none
      | some l => if i < l then some (l - 1) else some l
    Except.ok { s with proxies := s.proxies.eraseIdx i, last_proxy_index := newLast }
  else
    Except.error (PyError.indexError "Proxy does not exist")

/-- The failure ratio computed in `feedback_proxy` (lines 94-95). -/
def failed_ratio (p : Proxy) : ℚ :=
  let total := p.times_failed + p.times_succeed
  if 0 < total then (p.times_failed : ℚ) / (total : ℚ) else 0

/-- The `should_remove` disjunction of `feedback_proxy` (lines 97-100),
evaluated on the already-incremented record. -/
def should_remove (s : DMState) (p : Proxy) : Bool :=
  decide (s.allowed_fails_in_row < p.times_failed_in_row) ||
    (decide (s.fails_without_check < p.times_failed) &&
      decide (s.percent_failed_to_remove < failed_ratio p))

/-- `feedback_proxy` (lines 82-108).  Returns early (no state change) when
no last selection exists or it is out of range.  On success: increment
`times_succeed`, reset `times_failed_in_row`.  On failure: increment both
failure counters, compute `should_remove` (used only for a log message in
the source), then call `rm_proxy(self.last_proxy_index)` unconditionally —
the `rm_proxy` call sits outside the `if should_remove:` block. -/
def feedback_proxy (s : DMState) (success : Bool) : Except PyError DMState :=
  match s.last_proxy_index with
  | none => Except.ok s
  | some l =>
    if h : l < s.proxies.length then
      let proxy := s.proxies.get ⟨l, h⟩
      if success then
        let proxy1 : Proxy :=
          { proxy with times_succeed := proxy.times_succeed + 1, times_failed_in_row := 0 }
        Except.ok { s with proxies := s.proxies.set l proxy1 }
      else
        let proxy2 : Proxy :=
          { proxy with times_failed := proxy.times_failed + 1,
                       times_failed_in_row := proxy.times_failed_in_row + 1 }
        let s2 := { s with proxies := s.proxies.set l proxy2 }
        rm_proxy s2 (l : Int)
    else Except.ok s

/-- `add_proxy` (lines 110-134): builds a record per candidate, appends them,
updates the index incrementally (implicit here), then
`update_data(remove_duplicates=True)` deduplicates and persists.
`last_proxy_index` is never touched. -/
def add_proxy (s : DMState) (cs : List Candidate) : DMState :=
  let newProxies := cs.map mkRecord
  let extended := s.proxies ++ newProxies
  { s with proxies := rmDuplicateProxies extended }

/-- `force_rm_last_proxy` (lines 78-80). -/
def force_rm_last_proxy (s : DMState) : Except PyError DMState :=
  match s.last_proxy_index with
  | none => Except.ok s
  | some l => rm_proxy s (l : Int)

/-- Modelled from the spec: the `ProxyIndex` class (`utils`, not under
`src/`).  Per the spec's invariant the index's position sets are always
consistent with current list positions immediately after any structural
mutation, so a bucket for attribute value `v` is exactly the set of current
positions whose record carries `v`. -/
def indexBucket (proxies : List Proxy) (attr : Proxy → String) (v : String) :
    Finset ℕ :=
  (Finset.range proxies.length).filter (fun i => attr (proxies.getD i default) = v)

/-- `set().union(*(bucket[x] for x in vs))`: the union of the buckets of the
requested values. -/
def bucketUnion (proxies : List Proxy) (attr : Proxy → String)
    (vs : List String) : Finset ℕ :=
  vs.foldr (fun v acc => indexBucket proxies attr v ∪ acc) ∅

/-- The filter arguments of `get_proxy`; a `str` argument is normalized to a
one-element list by the source, so each is `None` or a list.  An empty list
is falsy in Python, hence skipped exactly like `None`. -/
structure Filters where
  protocol : Option (List String)
  country : Option (List String)
  anonymity : Option (List String)
  exclude_protocol : Option (List String)
  exclude_country : Option (List String)
  exclude_anonymity : Option (List String)
deriving Repr, DecidableEq

/-- The filters object with every argument left at its `None` default. -/
def noFilters : Filters :=
  { protocol := none, country := none, anonymity := none,
    exclude_protocol := none, exclude_country := none, exclude_anonymity := none }

/-- One include step of `get_proxy`: `if vs: valid &= union(buckets)`. -/
def applyIncl (proxies : List Proxy) (attr : Proxy → String)
    (filt : Option (List String)) (valid : Finset ℕ) : Finset ℕ :=
  match filt with
  | none => valid
  | some vs => if vs.isEmpty then valid else valid ∩ bucketUnion proxies attr vs

/-- One exclude step of `get_proxy`: `if vs: valid -= union(buckets)`. -/
def applyExcl (proxies : List Proxy) (attr : Proxy → String)
    (filt : Option (List String)) (valid : Finset ℕ) : Finset ℕ :=
  match filt with
  | none => valid
  | some vs => if vs.isEmpty then valid else valid \ bucketUnion proxies attr vs

/-- The `valid_indices` set built by `get_proxy` lines 169-201: full range,
then the three include intersections, then the three exclude subtractions. -/
def valid_indices (s : DMState) (f : Filters) : Finset ℕ :=
  let v0 := Finset.range s.proxies.length
  let v1 := applyIncl s.proxies Proxy.protocol f.protocol v0
  let v2 := applyIncl s.proxies Proxy.country f.country v1
  let v3 := applyIncl s.proxies Proxy.anonymity f.anonymity v2
  let v4 := applyExcl s.proxies Proxy.protocol f.exclude_protocol v3
  let v5 := applyExcl s.proxies Proxy.country f.exclude_country v4
  applyExcl s.proxies Proxy.anonymity f.exclude_anonymity v5

/-- `get_proxy` lines 166-212 up to the random draw: the min-pool guard, the
filtering, the empty check, and the anti-repeat adjustment, returning the set
handed to `random.choice`. -/
def get_proxy_candidates (s : DMState) (f : Filters) :
    Except PyError (Finset ℕ) :=
  if 0 < s.min_proxies ∧ s.proxies.length < s.min_proxies then
    Except.error
      (PyError.noProxyAvailable "Not enough proxies available. Fetch more proxies.")
  else if valid_indices s f = ∅ then
    Except.error (PyError.noProxyAvailable "No proxy found with the given parameters.")
  else
    match s.last_proxy_index with
    | some l =>
        Except.ok (if l ∈ valid_indices s f ∧ 1 < (valid_indices s f).card then
          (valid_indices s f).erase l else valid_indices s f)
    | none => Except.ok (valid_indices s f)

/-- `get_proxy` lines 214-218: `random.choice` is abstracted as an arbitrary
`pick` function over the candidate set; the chosen position becomes the new
`last_proxy_index` and is returned together with the new state. -/
def get_proxy (s : DMState) (f : Filters) (pick : Finset ℕ → ℕ) :
    Except PyError (DMState × ℕ) :=
  match get_proxy_candidates s f with
  | Except.error e => Except.error e
  | Except.ok c =>
      let i := pick c
      Except.ok ({ s with last_proxy_index := some i }, i)

/-- Record-level reading of one include filter: skipped filters and empty
lists constrain nothing; otherwise the attribute must be a requested value. -/
def inclOK (v : String) : Option (List String) → Bool
  | none => true
  | some vs => vs.isEmpty || vs.contains v

/-- Record-level reading of one exclude filter. -/
def exclOK (v : String) : Option (List String) → Bool
  | none => true
  | some vs => vs.isEmpty || !(vs.contains v)

/-- A record satisfies the combined filters: every given include dimension
lists its attribute value and no given exclude dimension does. -/
def matchesFilters (p : Proxy) (f : Filters) : Bool :=
  inclOK p.protocol f.protocol && inclOK p.country f.country &&
    inclOK p.anonymity f.anonymity && exclOK p.protocol f.exclude_protocol &&
    exclOK p.country f.exclude_country && exclOK p.anonymity f.exclude_anonymity

/-- A fresh record with all counters at zero, as built by `add_proxy`. -/
def mkP (u pr : String) : Proxy :=
  { url := u, protocol := pr, country := "unknown", anonymity := "unknown",
    times_failed := 0, times_succeed := 0, times_failed_in_row := 0 }

/-- A manager state with the constructor's default thresholds and an empty
pool. -/
def baseState : DMState :=
  { allowed_fails_in_row := 2, fails_without_check := 2,
    percent_failed_to_remove := 1/2, min_proxies := 0,
    proxies := [], last_proxy_index := none }

/-- Positions after the removed one shift down by one: reading the erased
list at the erased position gives the record that followed it. -/
theorem getD_eraseIdx_self (xs : List Proxy) (n : ℕ) :
    (xs.eraseIdx n).getD n default = xs.getD (n + 1) default := by
  induction xs generalizing n with
  | nil => simp [List.eraseIdx]
  | cons x rest ih =>
    cases n with
    | zero => simp [List.eraseIdx]
    | succ m => simpa [List.eraseIdx] using ih m

/-- The in-range behavior of `rm_proxy`, shared by several results below:
the record is deleted and the remembered last selection is decremented
exactly when the removed position lay strictly before it. -/
theorem rm_proxy_in_range (s : DMState) (index : Int)
    (h : 0 ≤ index ∧ index < (s.proxies.length : Int)) :
    rm_proxy s index = Except.ok { s with
      proxies := s.proxies.eraseIdx index.toNat,
      last_proxy_index :=
        s.last_proxy_index.map (fun l => if index.toNat < l then l - 1 else l) } := by
  rw [rm_proxy, if_pos h]
  cases hl : s.last_proxy_index with
  | none => rfl
  | some l => by_cases hlt : index.toNat < l <;> simp [hlt]

/-- Claim C7: `rm_proxy` on a position outside `[0, len)` fails with the
bounds error and (being pure) changes nothing; on an in-range position it
deletes that record, decrements the remembered last selection exactly when
it lay after the removed position, and shrinks the pool by one. -/
theorem rm_proxy_spec (s : DMState) (index : Int) :
    (¬(0 ≤ index ∧ index < (s.proxies.length : Int)) →
      rm_proxy s index = Except.error (PyError.indexError "Proxy does not exist"))
    ∧ (0 ≤ index ∧ index < (s.proxies.length : Int) →
      rm_proxy s index = Except.ok { s with
        proxies := s.proxies.eraseIdx index.toNat,
        last_proxy_index :=
          s.last_proxy_index.map (fun l => if index.toNat < l then l - 1 else l) })
    ∧ (∀ s2, rm_proxy s index = Except.ok s2 →
        s2.proxies.length + 1 = s.proxies.length) := by
  refine ⟨fun h => ?_, rm_proxy_in_range s index, fun s2 h2 => ?_⟩
  · rw [rm_proxy, if_neg h]
  · rw [rm_proxy] at h2
    by_cases h : 0 ≤ index ∧ index < (s.proxies.length : Int)
    · rw [if_pos h] at h2
      cases h2
      have hlt : index.toNat < s.proxies.length := by omega
      simp [List.length_eraseIdx, hlt]
      omega
    · rw [if_neg h] at h2
      cases h2

/-- A one-record pool whose last selection is position 0. -/
def exC7 : DMState :=
  { baseState with proxies := [mkP "http://192.168.0.1:8080" "http"],
                   last_proxy_index := some 0 }

/-- Witness for C7: on the one-record pool, `remove(-1)` fails with the
bounds error and `remove(0)` empties the pool. -/
theorem rm_proxy_spec_witness :
    rm_proxy exC7 (-1) = Except.error (PyError.indexError "Proxy does not exist")
    ∧ rm_proxy exC7 0 = Except.ok { exC7 with proxies := [], last_proxy_index := some 0 } :=
  ⟨(rm_proxy_spec exC7 (-1)).1 (by decide),
   (rm_proxy_spec exC7 0).2.1 ⟨by decide, by decide⟩⟩

/-- Claim C8: feedback with no live last selection — none recorded, or the
recorded position at or beyond the current pool length — returns the state
unchanged and raises nothing, for success and failure alike. -/
theorem feedback_stale_noop (s : DMState) (b : Bool)
    (h : ∀ l, s.last_proxy_index = some l → s.proxies.length ≤ l) :
    feedback_proxy s b = Except.ok s := by
  cases hl : s.last_proxy_index with
  | none => simp only [feedback_proxy, hl]
  | some l =>
    have hle := h l hl
    simp only [feedback_proxy, hl]
    rw [dif_neg (not_lt.mpr hle)]

/-- A pool of one record with a stale remembered selection (position 5). -/
def exC8 : DMState :=
  { baseState with proxies := [mkP "http://192.168.0.1:8080" "http"],
                   last_proxy_index := some 5 }

/-- Witness for C8: success feedback on the stale selection is a no-op. -/
theorem feedback_stale_noop_witness : feedback_proxy exC8 true = Except.ok exC8 :=
  feedback_stale_noop exC8 true (by
    intro l hl
    have h5 : exC8.last_proxy_index = some 5 := rfl
    rw [h5] at hl
    injection hl with h2
    subst h2
    decide)

/-- Claim C10: an in-range removal at position `i` decrements the remembered
last selection only when `i` is strictly below it; removing the remembered
position itself leaves the stored number unchanged, so afterwards it equals
the new pool length or points at the record that used to follow it.
`force_rm_last_proxy` removes exactly through this path. -/
theorem rm_last_selection_keeps_position (s : DMState) (i l : ℕ)
    (hl : s.last_proxy_index = some l) (hi : i < s.proxies.length) :
    rm_proxy s (i : Int) = Except.ok { s with
        proxies := s.proxies.eraseIdx i,
        last_proxy_index := some (if i < l then l - 1 else l) }
    ∧ (i = l → (if i < l then l - 1 else l) = l ∧
        (l = (s.proxies.eraseIdx i).length ∨ (l < (s.proxies.eraseIdx i).length ∧
          (s.proxies.eraseIdx i).getD l default = s.proxies.getD (l + 1) default)))
    ∧ force_rm_last_proxy s = rm_proxy s (l : Int) := by
  have hrange : 0 ≤ (i : Int) ∧ (i : Int) < (s.proxies.length : Int) := by
    constructor <;> omega
  refine ⟨?_, fun hil => ⟨?_, ?_⟩, ?_⟩
  · have := rm_proxy_in_range s (i : Int) hrange
    rw [this, hl]
    simp
  · rw [if_neg (by omega)]
  · subst hil
    have hlen : (s.proxies.eraseIdx i).length + 1 = s.proxies.length := by
      simp [List.length_eraseIdx, hi]
      omega
    rcases Nat.lt_or_ge i (s.proxies.eraseIdx i).length with hlt | hge
    · exact Or.inr ⟨hlt, getD_eraseIdx_self s.proxies i⟩
    · exact Or.inl (by omega)
  · rw [force_rm_last_proxy, hl]

/-- A two-record pool whose last selection is position 0. -/
def exC10 : DMState :=
  { baseState with
      proxies := [mkP "http://192.168.0.1:8080" "http",
                  mkP "http://192.168.0.2:8080" "http"],
      last_proxy_index := some 0 }

/-- Witness for C10: removing the remembered position 0 of a two-record pool
keeps the stored position 0, which now points at the former second record. -/
theorem rm_last_selection_keeps_position_witness :
    rm_proxy exC10 ((0 : ℕ) : Int) = Except.ok { exC10 with
        proxies := [mkP "http://192.168.0.2:8080" "http"],
        last_proxy_index := some 0 } :=
  (rm_last_selection_keeps_position exC10 0 0 rfl (by decide)).1

/-- A one-record pool with default thresholds (`allowed_fails_in_row = 2`,
`fails_without_check = 2`, `percent_failed_to_remove = 0.5`), a fresh record
with all counters at zero, selected as the last proxy. -/
def exC1 : DMState :=
  { baseState with proxies := [mkP "http://192.168.0.1:8080" "http"],
                   last_proxy_index := some 0 }

/-- Claim C1 is violated by the code: after a single `feedback(false)` on a
fresh record the incremented counters are `times_failed = 1 ≤ 2` and
`times_failed_in_row = 1 ≤ 2`, so `should_remove` is `false`; yet
`feedback_proxy` evicts the record anyway (the pool shrinks from one record
to none), because the source calls `rm_proxy` outside the
`if should_remove:` block. -/
theorem feedback_false_always_evicts :
    should_remove exC1
        { mkP "http://192.168.0.1:8080" "http" with
            times_failed := 1, times_failed_in_row := 1 } = false
    ∧ feedback_proxy exC1 false =
        Except.ok { exC1 with proxies := [], last_proxy_index := some 0 } := by
  constructor
  · decide
  · rfl

/-- Claim C2 (amended): when `min_proxies` is positive and the pool is below
it, `get_proxy` fails before any filtering — but with the same
`NoProxyAvailable` exception class as the empty-filter failure, only the
message differing; being pure, the failure leaves the pool unchanged. -/
theorem min_pool_guard (s : DMState) (f : Filters) (pick : Finset ℕ → ℕ)
    (h1 : 0 < s.min_proxies) (h2 : s.proxies.length < s.min_proxies) :
    get_proxy s f pick =
      Except.error
        (PyError.noProxyAvailable "Not enough proxies available. Fetch more proxies.") := by
  rw [get_proxy, get_proxy_candidates, if_pos ⟨h1, h2⟩]

/-- A one-record pool with `min_proxies = 2`. -/
def exC2 : DMState :=
  { baseState with min_proxies := 2,
                   proxies := [mkP "http://192.168.0.1:8080" "http"] }

/-- Witness for C2 (amended): the guard fires on the concrete
under-populated pool. -/
theorem min_pool_guard_witness :
    get_proxy exC2 noFilters (fun _ => 0) =
      Except.error
        (PyError.noProxyAvailable "Not enough proxies available. Fetch more proxies.") :=
  min_pool_guard exC2 noFilters (fun _ => 0) (by decide) (by decide)

/-- Counterexample to C2 as stated: on the under-populated pool the failure
is the `NoProxyAvailable` exception itself (`data_manager.py` line 167
raises `NoProxyAvailable`), not an error class distinct from it. -/
theorem min_pool_error_is_no_proxy_available :
    get_proxy_candidates exC2 noFilters =
      Except.error
        (PyError.noProxyAvailable "Not enough proxies available. Fetch more proxies.") := by
  rfl

/-- A candidate whose explicit `protocol` value `ftp` is outside the allowed
set, with an `http` endpoint URL. -/
def cFtp : Candidate :=
  { url := "http://1.2.3.4:8080", country := none, anonymity := none,
    protocol := some "ftp" }

/-- Counterexample to C3 as stated: `ftp` is invalid per the module's own
`_validate_protocol`, yet `add_proxy` ingests the batch without any error —
it never consults the candidate's `protocol` field — and the stored record's
protocol is the URL scheme `http`. -/
theorem add_ignores_invalid_protocol :
    _validate_protocol (some ["ftp"]) =
      Except.error (PyError.valueError "You cant use this protocol: ftp")
    ∧ (add_proxy baseState [cFtp]).proxies = [mkP "http://1.2.3.4:8080" "http"] := by
  constructor
  · rfl
  · decide

/-- Claim C3 (amended): `add_proxy` raises no validation error and ignores
the candidates' explicit `protocol` values entirely — rewriting every
candidate's `protocol` field leaves the result unchanged — and each built
record's protocol is the scheme of its parsed endpoint URL. -/
theorem add_defaults_protocol_from_scheme :
    (∀ (s : DMState) (cs : List Candidate) (g : Candidate → Option String),
      add_proxy s (cs.map (fun c => { c with protocol := g c })) = add_proxy s cs)
    ∧ (∀ c : Candidate, (mkRecord c).protocol = (parseURL c.url).protocol) := by
  constructor
  · intro s cs g
    rw [add_proxy, add_proxy, List.map_map]
    have hmk : (mkRecord ∘ fun c => { c with protocol := g c }) = mkRecord := by
      funext c
      rfl
    rw [hmk]
  · intro c
    rfl

/-- A two-record pool with distinct urls whose last selection is position 0
(record A). -/
def exC9 : DMState :=
  { baseState with
      proxies := [mkP "http://10.0.0.1:1" "http", mkP "http://10.0.0.2:2" "http"],
      last_proxy_index := some 0 }

/-- A fresh candidate with a third distinct url. -/
def cC9 : Candidate :=
  { url := "http://10.0.0.3:3", country := none, anonymity := none, protocol := none }

/-- Claim C9: `add_proxy` never touches `last_proxy_index`, although its
dedup pass reverses the pool; concretely, adding one new record to the
two-record pool keeps the remembered position 0 while position 0 now holds
the newest record instead of the selected one, so a success feedback lands
on the wrong record (the new one gets `times_succeed = 1`). -/
theorem add_preserves_last_index :
    (∀ (s : DMState) (cs : List Candidate),
      (add_proxy s cs).last_proxy_index = s.last_proxy_index)
    ∧ (add_proxy exC9 [cC9]).last_proxy_index = some 0
    ∧ (add_proxy exC9 [cC9]).proxies.getD 0 default ≠ exC9.proxies.getD 0 default
    ∧ feedback_proxy (add_proxy exC9 [cC9]) true =
        Except.ok { exC9 with
          proxies := [{ mkP "http://10.0.0.3:3" "http" with times_succeed := 1 },
                      mkP "http://10.0.0.2:2" "http", mkP "http://10.0.0.1:1" "http"],
          last_proxy_index := some 0 } := by
  refine ⟨fun s cs => rfl, rfl, ?_, ?_⟩
  · decide
  · rfl

/-- The seen-set scan only drops elements, preserving order. -/
theorem dedupAux_sublist (xs : List Proxy) (seen : List String) :
    (dedupAux xs seen).Sublist xs := by
  induction xs generalizing seen with
  | nil => simp [dedupAux]
  | cons p rest ih =>
    by_cases h : p.url ∈ seen
    · rw [dedupAux, if_pos h]
      exact (ih seen).cons p
    · rw [dedupAux, if_neg h]
      exact (ih (p.url :: seen)).cons₂ p

/-- Urls surviving the seen-set scan: those occurring in the input and not
already seen. -/
theorem mem_map_url_dedupAux (xs : List Proxy) (seen : List String) (u : String) :
    u ∈ (dedupAux xs seen).map Proxy.url ↔ u ∈ xs.map Proxy.url ∧ u ∉ seen := by
  induction xs generalizing seen with
  | nil => simp [dedupAux]
  | cons p rest ih =>
    by_cases h : p.url ∈ seen
    · rw [dedupAux, if_pos h]
      rw [ih seen]
      simp only [List.map_cons, List.mem_cons]
      constructor
      · rintro ⟨h1, h2⟩
        exact ⟨Or.inr h1, h2⟩
      · rintro ⟨h1, h2⟩
        refine ⟨h1.resolve_left fun e => h2 (e ▸ h), h2⟩
    · rw [dedupAux, if_neg h]
      simp only [List.map_cons, List.mem_cons, ih (p.url :: seen)]
      constructor
      · rintro (rfl | ⟨h1, h2⟩)
        · exact ⟨Or.inl rfl, h⟩
        · exact ⟨Or.inr h1, fun hs => h2 (Or.inr hs)⟩
      · rintro ⟨rfl | h1, h2⟩
        · exact Or.inl rfl
        · by_cases hu : u = p.url
          · exact Or.inl hu
          · exact Or.inr ⟨h1, fun hmem => hmem.elim hu h2⟩

/-- The seen-set scan never keeps two records with the same url. -/
theorem nodup_map_url_dedupAux (xs : List Proxy) (seen : List String) :
    ((dedupAux xs seen).map Proxy.url).Nodup := by
  induction xs generalizing seen with
  | nil => simp [dedupAux]
  | cons p rest ih =>
    by_cases h : p.url ∈ seen
    · rw [dedupAux, if_pos h]
      exact ih seen
    · rw [dedupAux, if_neg h]
      rw [List.map_cons, List.nodup_cons]
      refine ⟨fun hmem => ?_, ih (p.url :: seen)⟩
      exact ((mem_map_url_dedupAux _ _ _).mp hmem).2 (List.mem_cons_self _ _)

/-- Every survivor of the seen-set scan is the first record of the input
carrying its url. -/
theorem find?_dedupAux (xs : List Proxy) (seen : List String) :
    ∀ p ∈ dedupAux xs seen, xs.find? (fun q => q.url == p.url) = some p := by
  induction xs generalizing seen with
  | nil => simp [dedupAux]
  | cons x rest ih =>
    intro p hp
    by_cases h : x.url ∈ seen
    · rw [dedupAux, if_pos h] at hp
      have hurl : p.url ∉ seen :=
        ((mem_map_url_dedupAux rest seen p.url).mp (List.mem_map_of_mem _ hp)).2
      have hne : (x.url == p.url) = false := by
        simp only [beq_eq_false_iff_ne, ne_eq]
        exact fun e => hurl (e ▸ h)
      rw [List.find?_cons, hne]
      exact ih seen p hp
    · rw [dedupAux, if_neg h] at hp
      rcases List.mem_cons.mp hp with rfl | hp2
      · rw [List.find?_cons, beq_self_eq_true]
      · have hurl : p.url ∉ x.url :: seen :=
          ((mem_map_url_dedupAux rest (x.url :: seen) p.url).mp
            (List.mem_map_of_mem _ hp2)).2
        have hne : (x.url == p.url) = false := by
          simp only [beq_eq_false_iff_ne, ne_eq]
          exact fun e => hurl (e ▸ List.mem_cons_self _ _)
        rw [List.find?_cons, hne]
        exact ih (x.url :: seen) p hp2

/-- Claim C4: a dedup pass keeps exactly one record per distinct url (their
urls are pairwise distinct and exactly the input's urls survive), each
survivor is the most recently added record with its url (the first hit of a
reverse scan), and the survivors appear in reverse insertion order (the
result is a sublist of the reversed input). -/
theorem rm_duplicate_proxies_spec (l : List Proxy) :
    ((rmDuplicateProxies l).map Proxy.url).Nodup
    ∧ (∀ u, u ∈ (rmDuplicateProxies l).map Proxy.url ↔ u ∈ l.map Proxy.url)
    ∧ (∀ p ∈ rmDuplicateProxies l,
        l.reverse.find? (fun q => q.url == p.url) = some p)
    ∧ (rmDuplicateProxies l).Sublist l.reverse := by
  refine ⟨nodup_map_url_dedupAux _ _, fun u => ?_, find?_dedupAux _ _,
    dedupAux_sublist _ _⟩
  rw [rmDuplicateProxies, mem_map_url_dedupAux]
  simp

/-- Records named A, A2 (same url as A, newer telemetry field) and B. -/
def pA : Proxy := mkP "http://10.1.1.1:1" "http"

/-- The older duplicate's replacement: same url as `pA`, different country. -/
def pA2 : Proxy := { pA with country := "DE" }

/-- A distinct-url record. -/
def pB : Proxy := mkP "http://10.1.1.2:2" "http"

/-- Witness for C4: in the pool `[A, B, A2]` the survivor carrying A's url
is `A2`, the most recently added duplicate. -/
theorem rm_duplicate_proxies_spec_witness :
    [pA, pB, pA2].reverse.find? (fun q => q.url == pA2.url) = some pA2 :=
  (rm_duplicate_proxies_spec [pA, pB, pA2]).2.2.1 pA2 (by decide)

/-- Bucket membership: exactly the in-range positions holding value `v`. -/
theorem mem_indexBucket {proxies : List Proxy} {attr : Proxy → String}
    {v : String} {i : ℕ} :
    i ∈ indexBucket proxies attr v ↔
      i < proxies.length ∧ attr (proxies.getD i default) = v := by
  simp [indexBucket]

/-- Membership in a union of buckets: in range and the attribute is one of
the requested values. -/
theorem mem_bucketUnion {proxies : List Proxy} {attr : Proxy → String}
    {vs : List String} {i : ℕ} :
    i ∈ bucketUnion proxies attr vs ↔
      i < proxies.length ∧ attr (proxies.getD i default) ∈ vs := by
  induction vs with
  | nil => simp [bucketUnion]
  | cons v rest ih =>
    simp only [bucketUnion, List.foldr_cons] at ih ⊢
    rw [Finset.mem_union, mem_indexBucket, ih, List.mem_cons]
    tauto

/-- An include step keeps membership exactly for positions whose attribute
passes `inclOK`, provided the incoming set only holds in-range positions. -/
theorem mem_applyIncl {proxies : List Proxy} {attr : Proxy → String}
    {filt : Option (List String)} {valid : Finset ℕ} {i : ℕ}
    (hsub : ∀ j ∈ valid, j < proxies.length) :
    i ∈ applyIncl proxies attr filt valid ↔
      i ∈ valid ∧ inclOK (attr (proxies.getD i default)) filt = true := by
  cases filt with
  | none => simp [applyIncl, inclOK]
  | some vs =>
    by_cases he : vs.isEmpty
    · simp [applyIncl, he, inclOK]
    · rw [applyIncl, if_neg (by simp [he]), Finset.mem_inter, mem_bucketUnion]
      simp only [inclOK, he, Bool.false_or, List.contains, List.elem_iff]
      constructor
      · rintro ⟨h1, _, h3⟩
        exact ⟨h1, h3⟩
      · rintro ⟨h1, h2⟩
        exact ⟨h1, hsub i h1, h2⟩

/-- An exclude step keeps membership exactly for positions whose attribute
passes `exclOK`, provided the incoming set only holds in-range positions. -/
theorem mem_applyExcl {proxies : List Proxy} {attr : Proxy → String}
    {filt : Option (List String)} {valid : Finset ℕ} {i : ℕ}
    (hsub : ∀ j ∈ valid, j < proxies.length) :
    i ∈ applyExcl proxies attr filt valid ↔
      i ∈ valid ∧ exclOK (attr (proxies.getD i default)) filt = true := by
  cases filt with
  | none => simp [applyExcl, exclOK]
  | some vs =>
    by_cases he : vs.isEmpty
    · simp [applyExcl, he, exclOK]
    · rw [applyExcl, if_neg (by simp [he]), Finset.mem_sdiff, mem_bucketUnion]
      constructor
      · rintro ⟨h1, h2⟩
        refine ⟨h1, ?_⟩
        have hm : attr (proxies.getD i default) ∉ vs :=
          fun hm => h2 ⟨hsub i h1, hm⟩
        have hc : vs.contains (attr (proxies.getD i default)) = false := by
          rw [Bool.eq_false_iff]
          intro hct
          exact hm (List.elem_iff.mp hct)
        simp only [exclOK, hc, Bool.not_false, Bool.or_true]
      · rintro ⟨h1, h2⟩
        refine ⟨h1, fun hand => ?_⟩
        have hc : vs.contains (attr (proxies.getD i default)) = true :=
          List.elem_iff.mpr hand.2
        simp only [exclOK, hc, Bool.not_true, Bool.or_false] at h2
        exact he h2

/-- An include step never adds positions. -/
theorem applyIncl_subset {proxies : List Proxy} {attr : Proxy → String}
    {filt : Option (List String)} {valid : Finset ℕ} :
    applyIncl proxies attr filt valid ⊆ valid := by
  cases filt with
  | none => exact Finset.Subset.refl _
  | some vs =>
    rw [applyIncl]
    by_cases he : vs.isEmpty
    · rw [if_pos (by simp [he])]
    · rw [if_neg (by simp [he])]
      exact Finset.inter_subset_left

/-- An exclude step never adds positions. -/
theorem applyExcl_subset {proxies : List Proxy} {attr : Proxy → String}
    {filt : Option (List String)} {valid : Finset ℕ} :
    applyExcl proxies attr filt valid ⊆ valid := by
  cases filt with
  | none => exact Finset.Subset.refl _
  | some vs =>
    rw [applyExcl]
    by_cases he : vs.isEmpty
    · rw [if_pos (by simp [he])]
    · rw [if_neg (by simp [he])]
      exact Finset.sdiff_subset

/-- The valid set built by `get_proxy` holds exactly the in-range positions
whose record passes every include filter and no exclude filter. -/
theorem mem_valid_indices {s : DMState} {f : Filters} {i : ℕ} :
    i ∈ valid_indices s f ↔
      i < s.proxies.length ∧
        matchesFilters (s.proxies.getD i default) f = true := by
  have h0 : ∀ j ∈ Finset.range s.proxies.length, j < s.proxies.length :=
    fun j hj => Finset.mem_range.mp hj
  have h1 : ∀ j ∈ applyIncl s.proxies Proxy.protocol f.protocol
      (Finset.range s.proxies.length), j < s.proxies.length :=
    fun j hj => h0 j (applyIncl_subset hj)
  have h2 : ∀ j ∈ applyIncl s.proxies Proxy.country f.country
      (applyIncl s.proxies Proxy.protocol f.protocol
        (Finset.range s.proxies.length)), j < s.proxies.length :=
    fun j hj => h1 j (applyIncl_subset hj)
  have h3 : ∀ j ∈ applyIncl s.proxies Proxy.anonymity f.anonymity
      (applyIncl s.proxies Proxy.country f.country
        (applyIncl s.proxies Proxy.protocol f.protocol
          (Finset.range s.proxies.length))), j < s.proxies.length :=
    fun j hj => h2 j (applyIncl_subset hj)
  have h4 : ∀ j ∈ applyExcl s.proxies Proxy.protocol f.exclude_protocol
      (applyIncl s.proxies Proxy.anonymity f.anonymity
        (applyIncl s.proxies Proxy.country f.country
          (applyIncl s.proxies Proxy.protocol f.protocol
            (Finset.range s.proxies.length)))), j < s.proxies.length :=
    fun j hj => h3 j (applyExcl_subset hj)
  have h5 : ∀ j ∈ applyExcl s.proxies Proxy.country f.exclude_country
      (applyExcl s.proxies Proxy.protocol f.exclude_protocol
        (applyIncl s.proxies Proxy.anonymity f.anonymity
          (applyIncl s.proxies Proxy.country f.country
            (applyIncl s.proxies Proxy.protocol f.protocol
              (Finset.range s.proxies.length))))), j < s.proxies.length :=
    fun j hj => h4 j (applyExcl_subset hj)
  simp only [valid_indices]
  rw [mem_applyExcl h5, mem_applyExcl h4, mem_applyExcl h3, mem_applyIncl h2,
    mem_applyIncl h1, mem_applyIncl h0, Finset.mem_range]
  simp only [matchesFilters, Bool.and_eq_true]
  tauto

/-- Claim C5: any position in the candidate set of a successful selection is
in range and its record passes every given include filter and no exclude
filter; and when the min-pool guard passes but no position satisfies the
combined filters, selection fails with the `NoProxyAvailable` error. -/
theorem get_proxy_filter_spec (s : DMState) (f : Filters) :
    (∀ c, get_proxy_candidates s f = Except.ok c → ∀ i ∈ c,
      i < s.proxies.length ∧
        matchesFilters (s.proxies.getD i default) f = true)
    ∧ (s.min_proxies ≤ s.proxies.length → valid_indices s f = ∅ →
      get_proxy_candidates s f =
        Except.error
          (PyError.noProxyAvailable "No proxy found with the given parameters.")) := by
  constructor
  · intro c hok i hi
    rw [get_proxy_candidates] at hok
    by_cases hg : 0 < s.min_proxies ∧ s.proxies.length < s.min_proxies
    · rw [if_pos hg] at hok
      exact Except.noConfusion hok
    · rw [if_neg hg] at hok
      by_cases hv : valid_indices s f = ∅
      · rw [if_pos hv] at hok
        exact Except.noConfusion hok
      · rw [if_neg hv] at hok
        have hc : i ∈ valid_indices s f := by
          cases hl : s.last_proxy_index with
          | none =>
            simp only [hl, Except.ok.injEq] at hok
            rw [hok]
            exact hi
          | some l =>
            simp only [hl, Except.ok.injEq] at hok
            rw [← hok] at hi
            by_cases hcond : l ∈ valid_indices s f ∧ 1 < (valid_indices s f).card
            · rw [if_pos hcond] at hi
              exact Finset.erase_subset _ _ hi
            · rw [if_neg hcond] at hi
              exact hi
        exact mem_valid_indices.mp hc
  · intro hmin hempty
    rw [get_proxy_candidates,
      if_neg (fun hg => absurd hmin (not_le.mpr hg.2)), if_pos hempty]

/-- A two-record pool, one http and one https endpoint, with no remembered
selection and no minimum. -/
def exC5 : DMState :=
  { baseState with
      proxies := [mkP "http://10.2.0.1:1" "http", mkP "https://10.2.0.2:2" "https"] }

/-- The include filter `protocol = ["http"]`. -/
def fHttp : Filters := { noFilters with protocol := some ["http"] }

/-- Witness for C5: on the mixed pool, position 0 of the candidate set of a
`protocol=["http"]` selection is in range and its record passes the filter. -/
theorem get_proxy_filter_spec_witness :
    0 < exC5.proxies.length ∧
      matchesFilters (exC5.proxies.getD 0 default) fHttp = true :=
  (get_proxy_filter_spec exC5 fHttp).1 {0} (by decide) 0 (by decide)

/-- Claim C6: when the remembered last selection is still in the valid set
and that set has more than one element, the candidate set handed to the
random draw excludes the last selection and is still nonempty — so the
position returned by a successful consecutive selection always differs from
the previous one. -/
theorem get_proxy_anti_repeat (s : DMState) (f : Filters) (c : Finset ℕ)
    (l : ℕ) (hl : s.last_proxy_index = some l)
    (hmem : l ∈ valid_indices s f)
    (hcard : 1 < (valid_indices s f).card)
    (hok : get_proxy_candidates s f = Except.ok c) :
    l ∉ c ∧ c.Nonempty := by
  rw [get_proxy_candidates] at hok
  by_cases hg : 0 < s.min_proxies ∧ s.proxies.length < s.min_proxies
  · rw [if_pos hg] at hok
    exact Except.noConfusion hok
  · have hv : ¬(valid_indices s f = ∅) := by
      intro h
      rw [h] at hcard
      simp at hcard
    rw [if_neg hg, if_neg hv] at hok
    simp only [hl, Except.ok.injEq] at hok
    rw [if_pos ⟨hmem, hcard⟩] at hok
    rw [← hok]
    refine ⟨Finset.not_mem_erase _ _, ?_⟩
    rw [← Finset.card_pos, Finset.card_erase_of_mem hmem]
    omega

/-- A two-record pool with position 0 remembered as the last selection. -/
def exC6 : DMState :=
  { baseState with
      proxies := [mkP "http://10.3.0.1:1" "http", mkP "http://10.3.0.2:2" "http"],
      last_proxy_index := some 0 }

/-- Witness for C6: with both positions valid and position 0 remembered, the
candidate set is `{1}`: it omits 0 and is nonempty. -/
theorem get_proxy_anti_repeat_witness : (0 : ℕ) ∉ ({1} : Finset ℕ) ∧
    ({1} : Finset ℕ).Nonempty :=
  get_proxy_anti_repeat exC6 noFilters {1} 0 rfl (by decide) (by decide) (by decide)
